import Mathlib

/-!
Verification of the MIT battery data explorer (`dataloader/data_explorer.py`).

The program is a linear extract-transform-aggregate pipeline:
`load_charge_data` / `load_partial_charge_data` walk `.mat` files
(dataset → battery array → cycle array → field mapping), build one
`CycleRecord` per cycle, store per-battery groups in the dict
`battery_data` (keyed by the string `battery_{n}_{cycle_type}`) and append
every record to the flat list `summary_data`; `summarize_dataset` then
computes global capacity statistics (numpy, population std) and grouped
statistics by cycle type (pandas, sample std) and emits two CSV tables.

Numeric values are modelled as exact rationals (`ℚ`); the floating-point
square root inside the standard deviations is modelled as `Real.sqrt`.
Fallible operations (indexing `[0]` into a possibly-empty array,
`np.max` over a possibly-empty array, the whole fail-fast load) are
modelled in `Option`: `none` is an uncaught Python exception aborting the
run.
-/

/-- `np.mean` over a 1-D array, `sum / len`.  (On an empty array numpy
returns NaN with a warning rather than raising; in every reachable path of
the program the companion `np.max` over the same empty array raises first,
so the empty case is never observed in a produced record.) -/
def npMean (xs : List ℚ) : ℚ := xs.sum / (xs.length : ℚ)

/-- `np.max` over a 1-D array; raises `ValueError` on an empty array. -/
def npMax : List ℚ → Option ℚ
  | [] => none
  | x :: xs => some (xs.foldl max x)

/-- `np.min` over a 1-D array; raises `ValueError` on an empty array. -/
def npMin : List ℚ → Option ℚ
  | [] => none
  | x :: xs => some (xs.foldl min x)

/-- One decoded `.mat` cycle structure: the four raw signal arrays and the
capacity array (`cycle["capacity"]`, a length-1 array in valid data). -/
structure MatCycle where
  relative_time_min : List ℚ
  current_A : List ℚ
  voltage_V : List ℚ
  temperature_C : List ℚ
  capacity : List (List ℚ)
deriving DecidableEq

/-- `battery[0, battery_idx][0]`: the cycle array of one battery. -/
abbrev MatBattery := List MatCycle

/-- `mat["battery"]`, shape `[1, N]`: the battery array of one file. -/
abbrev MatFile := List MatBattery

/-- One row of the summary table: the `cycle_features` dict built per cycle. -/
structure CycleRecord where
  battery_id : ℕ
  cycle_type : String
  cycle_idx : ℕ
  time_mean : ℚ
  time_max : ℚ
  current_mean : ℚ
  current_max : ℚ
  voltage_mean : ℚ
  voltage_max : ℚ
  temperature_mean : ℚ
  temperature_max : ℚ
  capacity : List ℚ
deriving DecidableEq

/-- The value stored in `self.battery_data[...]`:
`{"cycles": cycle_data, "capacities": capacities}`. -/
structure BatteryEntry where
  cycles : List CycleRecord
  capacities : List (List ℚ)
deriving DecidableEq

/-- The mutable state of the explorer: the dict `self.battery_data`
(modelled as an insertion-ordered association list, as a Python dict) and
the list `self.summary_data`. -/
structure ExplorerState where
  battery_data : List (String × BatteryEntry)
  summary_data : List CycleRecord
deriving DecidableEq

/-- Python dict assignment `d[k] = v`: replace in place if the key is
present (keeping its position), otherwise append at the end. -/
def dictInsert (m : List (String × BatteryEntry)) (k : String) (v : BatteryEntry) :
    List (String × BatteryEntry) :=
  if m.any (fun p => p.1 = k) then m.map (fun p => if p.1 = k then (k, v) else p)
  else m ++ [(k, v)]

/-- Decimal digits, most significant first, by structural recursion on a
fuel bound (any fuel above the number of digits gives the same result). -/
def natDigitsAux : ℕ → ℕ → List Char
  | 0, _ => []
  | fuel + 1, n =>
    if n < 10 then [Nat.digitChar n]
    else natDigitsAux fuel (n / 10) ++ [Nat.digitChar (n % 10)]

/-- Decimal digits of `n`, most significant first: the rendering of the
battery index inside the f-string `f"battery_{battery_idx+1}_{...}"`. -/
def natDigits (n : ℕ) : List Char := natDigitsAux (n + 1) n

/-- Decimal string of a natural number. -/
def natStr (n : ℕ) : String := ⟨natDigits n⟩

/-- The dict key `f"battery_{n}_{cycle_type}"`. -/
def batteryKey (n : ℕ) (ctype : String) : String :=
  "battery_" ++ natStr n ++ "_" ++ ctype

/-- Per-cycle feature extraction: the body of the inner loop of the two
load routines.  `cycle["capacity"][0]` is taken first (it raises
`IndexError` on an empty capacity array); each `np.max` raises on an empty
signal array.  `battery_idx` and `cycle_idx` are the 0-based loop
counters; the stored `battery_id` is `battery_idx + 1`. -/
def processCycle (ctype : String) (battery_idx cycle_idx : ℕ) (c : MatCycle) :
    Option CycleRecord := do
  let capacity ← c.capacity.head?
  let time_max ← npMax c.relative_time_min
  let current_max ← npMax c.current_A
  let voltage_max ← npMax c.voltage_V
  let temperature_max ← npMax c.temperature_C
  some { battery_id := battery_idx + 1
         cycle_type := ctype
         cycle_idx := cycle_idx
         time_mean := npMean c.relative_time_min
         time_max := time_max
         current_mean := npMean c.current_A
         current_max := current_max
         voltage_mean := npMean c.voltage_V
         voltage_max := voltage_max
         temperature_mean := npMean c.temperature_C
         temperature_max := temperature_max
         capacity := capacity }

/-- The `for cycle_idx in range(...)` loop: builds `cycle_data` and the
parallel `capacities` list, starting from loop counter `i`. -/
def processCycles (ctype : String) (battery_idx : ℕ) :
    ℕ → List MatCycle → Option (List CycleRecord × List (List ℚ))
  | _, [] => some ([], [])
  | i, c :: cs => do
      let r ← processCycle ctype battery_idx i c
      let (rs, caps) ← processCycles ctype battery_idx (i + 1) cs
      some (r :: rs, r.capacity :: caps)

/-- The `for battery_idx in range(battery.shape[1])` loop: for each
battery, build its cycle data, store the group in `battery_data` under
`battery_{battery_idx+1}_{ctype}`, and extend `summary_data`. -/
def processBatteries (ctype : String) :
    ℕ → List MatBattery → ExplorerState → Option ExplorerState
  | _, [], st => some st
  | i, b :: bs, st => do
      let (cycle_data, capacities) ← processCycles ctype i 0 b
      processBatteries ctype (i + 1) bs
        { battery_data :=
            dictInsert st.battery_data (batteryKey (i + 1) ctype)
              ⟨cycle_data, capacities⟩
          summary_data := st.summary_data ++ cycle_data }

/-- The `for file in files` loop shared by both load routines. -/
def loadData (ctype : String) : List MatFile → ExplorerState → Option ExplorerState
  | [], st => some st
  | f :: fs, st => do
      let st' ← processBatteries ctype 0 f st
      loadData ctype fs st'

/-- `load_charge_data`: walk every file of the `charge/` directory. -/
def load_charge_data (files : List MatFile) (st : ExplorerState) :
    Option ExplorerState :=
  loadData "charge" files st

/-- `load_partial_charge_data`: walk every file of `partial_charge/`. -/
def load_partial_charge_data (files : List MatFile) (st : ExplorerState) :
    Option ExplorerState :=
  loadData "partial_charge" files st

/-- Both load routines in program order, starting from the fresh state
built by `__init__` (empty dict, empty list). -/
def runLoad (chargeFiles pcFiles : List MatFile) : Option ExplorerState :=
  (load_charge_data chargeFiles ⟨[], []⟩).bind
    (fun st => load_partial_charge_data pcFiles st)

/-- The lambda `x[0] if isinstance(x, np.ndarray) else x` applied to the
`capacity` column: the stored capacity is always an ndarray here, so this
is indexing `[0]`, raising `IndexError` on an empty array. -/
def flat? (r : CycleRecord) : Option ℚ := r.capacity.head?

/-- `summary_df["capacity"].apply(...)`: the flattened capacity column,
aligned with the rows; any failure aborts `summarize_dataset`. -/
def flatCaps : List CycleRecord → Option (List ℚ)
  | [] => some []
  | r :: rs => do
      let c ← flat? r
      let cs ← flatCaps rs
      some (c :: cs)

/-- `np.std` variance part (ddof=0, the numpy default): mean of the
squared deviations, `sum((x - mean)^2) / N`. -/
def popVar (xs : List ℚ) : ℚ :=
  (xs.map (fun x => (x - npMean xs) ^ 2)).sum / (xs.length : ℚ)

/-- `np.std(xs)` (population convention): square root of `popVar`. -/
noncomputable def npStd (xs : List ℚ) : ℝ := Real.sqrt ((popVar xs : ℚ) : ℝ)

/-- The variance part of the pandas `std` aggregate (ddof=1, the library
default): `sum((x - mean)^2) / (N - 1)`, and NaN (here `none`) when there
are fewer than two samples. -/
def sampleVar (xs : List ℚ) : Option ℚ :=
  if 2 ≤ xs.length then
    some ((xs.map (fun x => (x - npMean xs) ^ 2)).sum / ((xs.length : ℚ) - 1))
  else none

/-- The pandas `std` aggregate (sample convention): square root of
`sampleVar`, NaN (`none`) when fewer than two samples. -/
noncomputable def pdStd (xs : List ℚ) : Option ℝ :=
  (sampleVar xs).map (fun v => Real.sqrt ((v : ℚ) : ℝ))

/-- One row of `grouped_stats` = `groupby("cycle_type")["flattened_capacity"]
.agg(["mean", "min", "max", "std"])`. -/
structure GroupRow where
  cycle_type : String
  mean : ℚ
  min : ℚ
  max : ℚ
  std : Option ℝ

/-- The printed global capacity statistics over `all_capacities`. -/
structure GlobalStats where
  mean : ℚ
  min : ℚ
  max : ℚ
  std : ℝ

/-- A cell of the per-cycle CSV table. -/
inductive Cell where
  | str : String → Cell
  | nat : ℕ → Cell
  | num : ℚ → Cell
deriving DecidableEq

/-- The column list of `battery_cycle_summary.csv`: the dict-insertion
order of `cycle_features`, with `capacity` dropped and
`flattened_capacity` appended at the end. -/
def summaryHeader : List String :=
  ["battery_id", "cycle_type", "cycle_idx", "time_mean", "time_max",
   "current_mean", "current_max", "voltage_mean", "voltage_max",
   "temperature_mean", "temperature_max", "flattened_capacity"]

/-- One CSV row of `battery_cycle_summary.csv`: the record's columns with
the capacity column replaced by its flattened (scalar) variant. -/
def mkRow (r : CycleRecord) (fc : ℚ) : List Cell :=
  [.nat r.battery_id, .str r.cycle_type, .nat r.cycle_idx,
   .num r.time_mean, .num r.time_max, .num r.current_mean, .num r.current_max,
   .num r.voltage_mean, .num r.voltage_max,
   .num r.temperature_mean, .num r.temperature_max, .num fc]

/-- Insert into a lexicographically sorted list of strings. -/
def insertSorted (s : String) : List String → List String
  | [] => [s]
  | t :: ts => if t < s then t :: insertSorted s ts else s :: t :: ts

/-- `groupby` sorts the group keys (the pandas default `sort=True`). -/
def sortKeys (l : List String) : List String := l.foldr insertSorted []

/-- The grouped aggregates: for each distinct `cycle_type` key (sorted, as
`groupby` does), the mean/min/max/std of the flattened capacities of the
rows of that key, in row order.  `typed` pairs each row's `cycle_type`
with its flattened capacity.  A key coming from the rows always has a
non-empty group, so the `[]` branch is unreachable. -/
noncomputable def groupedRows (typed : List (String × ℚ)) : List GroupRow :=
  (sortKeys (typed.map (fun p => p.1)).dedup).filterMap fun k =>
    match ((typed.filter (fun p => p.1 = k)).map (fun p => p.2)) with
    | [] => none
    | c :: cs =>
      some { cycle_type := k
             mean := npMean (c :: cs)
             min := cs.foldl min c
             max := cs.foldl max c
             std := pdStd (c :: cs) }

/-- Everything `summarize_dataset` emits: the console statistics and the
contents of the two CSV files. -/
structure SummarizeOutput where
  total_batteries : ℕ
  total_cycles : ℕ
  global : GlobalStats
  header : List String
  rows : List (List Cell)
  grouped : List GroupRow

/-- `summarize_dataset`.  On an empty `summary_data` the DataFrame has no
`capacity` column and the column access raises `KeyError`, so the whole
call fails; flattening the capacity column fails on any empty capacity
array.  Otherwise the flattened list is non-empty (same length as the
rows), so the second `[]` branch is unreachable. -/
noncomputable def summarize_dataset (st : ExplorerState) : Option SummarizeOutput :=
  match st.summary_data with
  | [] => none
  | _ :: _ =>
    (flatCaps st.summary_data).bind fun caps =>
      match caps with
      | [] => none
      | c :: cs =>
        some { total_batteries := st.battery_data.length
               total_cycles := st.summary_data.length
               global :=
                 { mean := npMean caps
                   min := cs.foldl min c
                   max := cs.foldl max c
                   std := npStd caps }
               header := summaryHeader
               rows := (st.summary_data.zip caps).map (fun p => mkRow p.1 p.2)
               grouped :=
                 groupedRows (((st.summary_data.map (fun r => r.cycle_type)).zip caps)) }

/-- `main()`: the full pipeline — both load routines on a fresh explorer
state, then `summarize_dataset`. -/
noncomputable def runPipeline (chargeFiles pcFiles : List MatFile) :
    Option SummarizeOutput :=
  (runLoad chargeFiles pcFiles).bind summarize_dataset

/-- Rendering of one CSV cell (a fixed, stable formatting). -/
def cellStr : Cell → String
  | .str s => s
  | .nat n => natStr n
  | .num q => toString q

/-- Byte content of `battery_cycle_summary.csv` under the fixed
formatting: header line then one line per row, comma separated. -/
def renderCsv (o : SummarizeOutput) : String :=
  String.intercalate "\n"
    ((String.intercalate "," o.header) ::
      o.rows.map (fun cs => String.intercalate "," (cs.map cellStr)))

/-- The cycle count held by the battery-group mapping: the sum, over all
entries of `battery_data`, of the length of that entry's `cycles` list. -/
def sumCycles (m : List (String × BatteryEntry)) : ℕ :=
  (m.map (fun p => p.2.cycles.length)).sum

/-- One of the four signal arrays of the cycle is empty. -/
def hasEmptySignal (c : MatCycle) : Prop :=
  c.relative_time_min = [] ∨ c.current_A = [] ∨
  c.voltage_V = [] ∨ c.temperature_C = []

instance (c : MatCycle) : Decidable (hasEmptySignal c) := by
  unfold hasEmptySignal; infer_instance

/-- The records of one file's batteries, in battery-then-cycle order,
starting from battery loop counter `i`. -/
def batteriesRecords (ctype : String) : ℕ → List MatBattery → Option (List CycleRecord)
  | _, [] => some []
  | i, b :: bs => do
      let (rs, _) ← processCycles ctype i 0 b
      let rest ← batteriesRecords ctype (i + 1) bs
      some (rs ++ rest)

/-- The records of a directory's files in file-then-battery-then-cycle
order: exactly what the load loop appends to `summary_data`. -/
def filesRecords (ctype : String) : List MatFile → Option (List CycleRecord)
  | [] => some []
  | f :: fs => do
      let a ← batteriesRecords ctype 0 f
      let b ← filesRecords ctype fs
      some (a ++ b)

/-! ### Concrete inputs used by witnesses and counterexamples -/

/-- A synthetic cycle whose four signals are the single sample `1` and
whose capacity array is `[[cap]]`. -/
def synCycle (cap : ℚ) : MatCycle := ⟨[1], [1], [1], [1], [[cap]]⟩

/-- One charge file: one battery with capacities 10, 20, 30. -/
def synChargeFile : MatFile := [[synCycle 10, synCycle 20, synCycle 30]]

/-- One partial-charge file: one battery with capacities 5, 5, 5. -/
def synPcFile : MatFile := [[synCycle 5, synCycle 5, synCycle 5]]

/-- The explorer state after loading `[synChargeFile]` and `[synPcFile]`. -/
def synState : ExplorerState :=
  ⟨[(batteryKey 1 "charge", ⟨[⟨1, "charge", 0, 1, 1, 1, 1, 1, 1, 1, 1, [10]⟩,
      ⟨1, "charge", 1, 1, 1, 1, 1, 1, 1, 1, 1, [20]⟩,
      ⟨1, "charge", 2, 1, 1, 1, 1, 1, 1, 1, 1, [30]⟩], [[10], [20], [30]]⟩),
    (batteryKey 1 "partial_charge",
      ⟨[⟨1, "partial_charge", 0, 1, 1, 1, 1, 1, 1, 1, 1, [5]⟩,
      ⟨1, "partial_charge", 1, 1, 1, 1, 1, 1, 1, 1, 1, [5]⟩,
      ⟨1, "partial_charge", 2, 1, 1, 1, 1, 1, 1, 1, 1, [5]⟩], [[5], [5], [5]]⟩)],
   [⟨1, "charge", 0, 1, 1, 1, 1, 1, 1, 1, 1, [10]⟩,
    ⟨1, "charge", 1, 1, 1, 1, 1, 1, 1, 1, 1, [20]⟩,
    ⟨1, "charge", 2, 1, 1, 1, 1, 1, 1, 1, 1, [30]⟩,
    ⟨1, "partial_charge", 0, 1, 1, 1, 1, 1, 1, 1, 1, [5]⟩,
    ⟨1, "partial_charge", 1, 1, 1, 1, 1, 1, 1, 1, 1, [5]⟩,
    ⟨1, "partial_charge", 2, 1, 1, 1, 1, 1, 1, 1, 1, [5]⟩]⟩

/-- A one-battery, one-cycle charge file (capacity 1). -/
def miniFile : MatFile := [[synCycle 1]]

/-- A cycle whose time signal is empty. -/
def badCycle : MatCycle := ⟨[], [1], [1], [1], [[1]]⟩

/-- The explorer state after loading just `[miniFile]` and no
partial-charge files: a single one-cycle battery group. -/
def miniState : ExplorerState :=
  ⟨[(batteryKey 1 "charge", ⟨[⟨1, "charge", 0, 1, 1, 1, 1, 1, 1, 1, 1, [1]⟩], [[1]]⟩)],
   [⟨1, "charge", 0, 1, 1, 1, 1, 1, 1, 1, 1, [1]⟩]⟩

/-! ### The dict keys `battery_{n}_{cycle_type}` -/

theorem digitChar_lt_ten_inj {a b : ℕ} (ha : a < 10) (hb : b < 10)
    (h : Nat.digitChar a = Nat.digitChar b) : a = b := by
  have key : ∀ x y : Fin 10, Nat.digitChar x.val = Nat.digitChar y.val → x = y := by decide
  have := key ⟨a, ha⟩ ⟨b, hb⟩ h
  exact congrArg Fin.val this

theorem digitChar_lt_ten_ne_underscore {k : ℕ} (hk : k < 10) :
    Nat.digitChar k ≠ '_' := by
  have key : ∀ x : Fin 10, Nat.digitChar x.val ≠ '_' := by decide
  exact key ⟨k, hk⟩

theorem natDigitsAux_ne_nil : ∀ {fuel n : ℕ}, n < fuel → natDigitsAux fuel n ≠ []
  | fuel + 1, n, _ => by
    simp only [natDigitsAux]
    split
    · simp
    · simp

theorem mem_natDigitsAux :
    ∀ fuel n, n < fuel → ∀ c ∈ natDigitsAux fuel n, ∃ k, k < 10 ∧ c = Nat.digitChar k := by
  intro fuel
  induction fuel with
  | zero => intro n h; omega
  | succ f ih =>
    intro n hn c hc
    simp only [natDigitsAux] at hc
    by_cases h10 : n < 10
    · rw [if_pos h10] at hc
      simp at hc
      exact ⟨n, h10, hc⟩
    · rw [if_neg h10] at hc
      rcases List.mem_append.mp hc with h | h
      · have hdiv : n / 10 < n := Nat.div_lt_self (by omega) (by omega)
        exact ih (n / 10) (by omega) c h
      · simp at h
        exact ⟨n % 10, Nat.mod_lt n (by omega), h⟩

theorem natDigitsAux_inj :
    ∀ f1 f2 n m, n < f1 → m < f2 →
      natDigitsAux f1 n = natDigitsAux f2 m → n = m := by
  intro f1
  induction f1 with
  | zero => intro f2 n m h; omega
  | succ f ih =>
    intro f2 n m hn hm heq
    match f2, hm with
    | f2 + 1, hm =>
      simp only [natDigitsAux] at heq
      by_cases hn10 : n < 10 <;> by_cases hm10 : m < 10
      · rw [if_pos hn10, if_pos hm10] at heq
        simp at heq
        exact digitChar_lt_ten_inj hn10 hm10 heq
      · rw [if_pos hn10, if_neg hm10] at heq
        have hdiv : m / 10 < m := Nat.div_lt_self (by omega) (by omega)
        have hne := natDigitsAux_ne_nil (show m / 10 < f2 by omega)
        have hlen := congrArg List.length heq
        simp at hlen
        exact absurd hlen hne
      · rw [if_neg hn10, if_pos hm10] at heq
        have hdiv : n / 10 < n := Nat.div_lt_self (by omega) (by omega)
        have hne := natDigitsAux_ne_nil (show n / 10 < f by omega)
        have hlen := congrArg List.length heq
        simp at hlen
        exact absurd hlen hne
      · rw [if_neg hn10, if_neg hm10] at heq
        have hdivn : n / 10 < n := Nat.div_lt_self (by omega) (by omega)
        have hdivm : m / 10 < m := Nat.div_lt_self (by omega) (by omega)
        obtain ⟨h1, h2⟩ := List.append_inj' heq (by simp)
        have hdiv := ih f2 (n / 10) (m / 10) (by omega) (by omega) h1
        simp at h2
        have hmod := digitChar_lt_ten_inj (Nat.mod_lt n (by omega))
          (Nat.mod_lt m (by omega)) h2
        have hn' := Nat.div_add_mod n 10
        have hm' := Nat.div_add_mod m 10
        omega

theorem natDigits_inj {n m : ℕ} (h : natDigits n = natDigits m) : n = m :=
  natDigitsAux_inj (n + 1) (m + 1) n m (by omega) (by omega) h

theorem underscore_notMem_natDigits (n : ℕ) : '_' ∉ natDigits n := by
  intro hmem
  obtain ⟨k, hk, hc⟩ := mem_natDigitsAux (n + 1) n (by omega) _ hmem
  exact digitChar_lt_ten_ne_underscore hk hc.symm

theorem batteryKey_data (n : ℕ) (ct : String) :
    (batteryKey n ct).data = "battery_".data ++ (natDigits n ++ ('_' :: ct.data)) := by
  simp [batteryKey, natStr, String.data_append]

theorem batteryKey_inj_idx {n m : ℕ} {ct : String}
    (h : batteryKey n ct = batteryKey m ct) : n = m := by
  have hd := congrArg String.data h
  rw [batteryKey_data, batteryKey_data] at hd
  have h1 := List.append_cancel_left hd
  have h2 := List.append_cancel_right h1
  exact natDigits_inj h2

/-- A charge key never collides with a partial-charge key: the battery
index renders as decimal digits, so it cannot absorb the extra
`_partial` infix. -/
theorem batteryKey_charge_ne_pc (n m : ℕ) :
    batteryKey n "charge" ≠ batteryKey m "partial_charge" := by
  intro h
  have hd := congrArg String.data h
  rw [batteryKey_data, batteryKey_data] at hd
  have h1 := List.append_cancel_left hd
  have hsplit : ('_' :: "partial_charge".data) =
      ('_' :: "partial".data) ++ ('_' :: "charge".data) := by decide
  rw [hsplit, ← List.append_assoc] at h1
  have h2 := List.append_cancel_right h1
  have : '_' ∈ natDigits n := by
    rw [h2]
    exact List.mem_append.mpr (Or.inr (by simp))
  exact underscore_notMem_natDigits n this

/-! ### Dict-assignment facts -/

theorem mem_dictInsert {m : List (String × BatteryEntry)} {k : String}
    {v : BatteryEntry} {p : String × BatteryEntry} (h : p ∈ dictInsert m k v) :
    p ∈ m ∨ p = (k, v) := by
  unfold dictInsert at h
  split at h
  · obtain ⟨q, hq, hmap⟩ := List.mem_map.mp h
    by_cases hqk : q.1 = k
    · right; rw [if_pos hqk] at hmap; exact hmap.symm
    · left; rw [if_neg hqk] at hmap; exact hmap ▸ hq
  · rcases List.mem_append.mp h with h | h
    · exact Or.inl h
    · right; simpa using h

theorem dictInsert_of_not_mem {m : List (String × BatteryEntry)} {k : String}
    {v : BatteryEntry} (h : ∀ p ∈ m, p.1 ≠ k) :
    dictInsert m k v = m ++ [(k, v)] := by
  unfold dictInsert
  rw [if_neg]
  intro hc
  obtain ⟨p, hp, hpk⟩ := List.any_eq_true.mp hc
  exact h p hp (of_decide_eq_true hpk)

/-! ### The load invariant behind C2 -/

theorem processBatteries_fresh_inv (ctype : String) :
    ∀ (bs : List MatBattery) (i : ℕ) (st st' : ExplorerState),
      processBatteries ctype i bs st = some st' →
      (∀ j, i ≤ j → ∀ p ∈ st.battery_data, p.1 ≠ batteryKey (j + 1) ctype) →
      st.summary_data.length = sumCycles st.battery_data →
      st'.summary_data.length = sumCycles st'.battery_data ∧
      ∀ p ∈ st'.battery_data,
        p ∈ st.battery_data ∨ ∃ j, p.1 = batteryKey (j + 1) ctype := by
  intro bs
  induction bs with
  | nil =>
    intro i st st' h hf hinv
    simp only [processBatteries, Option.some.injEq] at h
    subst h
    exact ⟨hinv, fun p hp => Or.inl hp⟩
  | cons b bs ih =>
    intro i st st' h hf hinv
    simp only [processBatteries, bind, Option.bind_eq_some] at h
    obtain ⟨⟨rs, caps⟩, hrc, h⟩ := h
    have hfresh : ∀ p ∈ st.battery_data, p.1 ≠ batteryKey (i + 1) ctype :=
      hf i (le_refl i)
    have hins := dictInsert_of_not_mem (v := ⟨rs, caps⟩) hfresh
    rw [hins] at h
    have hinv1 : (st.summary_data ++ rs).length =
        sumCycles (st.battery_data ++ [(batteryKey (i + 1) ctype, ⟨rs, caps⟩)]) := by
      simp [sumCycles] at hinv ⊢
      omega
    have hf1 : ∀ j, i + 1 ≤ j →
        ∀ p ∈ st.battery_data ++ [(batteryKey (i + 1) ctype, (⟨rs, caps⟩ : BatteryEntry))],
          p.1 ≠ batteryKey (j + 1) ctype := by
      intro j hj p hp
      rcases List.mem_append.mp hp with hp | hp
      · exact hf j (by omega) p hp
      · simp at hp
        rw [hp]
        intro hk
        have := batteryKey_inj_idx hk
        omega
    obtain ⟨hinv', hsub⟩ := ih (i + 1) _ st' h hf1 hinv1
    refine ⟨hinv', fun p hp => ?_⟩
    rcases hsub p hp with hp1 | hp1
    · rcases List.mem_append.mp hp1 with h' | h'
      · exact Or.inl h'
      · simp at h'
        exact Or.inr ⟨i, by rw [h']⟩
    · exact Or.inr hp1

theorem loadData_le_one_inv (ctype : String) (fs : List MatFile)
    (st st' : ExplorerState) (h : loadData ctype fs st = some st')
    (hlen : fs.length ≤ 1)
    (hf : ∀ n, ∀ p ∈ st.battery_data, p.1 ≠ batteryKey (n + 1) ctype)
    (hinv : st.summary_data.length = sumCycles st.battery_data) :
    st'.summary_data.length = sumCycles st'.battery_data ∧
    ∀ p ∈ st'.battery_data,
      p ∈ st.battery_data ∨ ∃ j, p.1 = batteryKey (j + 1) ctype := by
  match fs, hlen with
  | [], _ =>
    simp only [loadData, Option.some.injEq] at h
    subst h
    exact ⟨hinv, fun p hp => Or.inl hp⟩
  | [f], _ =>
    simp only [loadData, bind, Option.bind_eq_some] at h
    obtain ⟨st1, h1, h2⟩ := h
    simp only [loadData, Option.some.injEq] at h2
    subst h2
    exact processBatteries_fresh_inv ctype f 0 st _ h1 (fun j _ => hf j) hinv

/-- **C2 (amended).** When each of the two directories holds at most one
file, the length of `summary_data` equals the sum over all `battery_data`
entries of that entry's cycle count.  (With two or more files in one
directory the dict keys collide and the equality fails; see the
counterexample.) -/
theorem spec_c2_summary_length_amended (cf pf : List MatFile)
    (st : ExplorerState) (h : runLoad cf pf = some st)
    (h1 : cf.length ≤ 1) (h2 : pf.length ≤ 1) :
    st.summary_data.length = sumCycles st.battery_data := by
  simp only [runLoad, Option.bind_eq_some] at h
  obtain ⟨st1, hc, hp⟩ := h
  have r1 := loadData_le_one_inv "charge" cf ⟨[], []⟩ st1 hc h1
    (by intro n p hp'; simp at hp') (by simp [sumCycles])
  have hf2 : ∀ n, ∀ p ∈ st1.battery_data, p.1 ≠ batteryKey (n + 1) "partial_charge" := by
    intro n p hp' hkey
    rcases r1.2 p hp' with h' | ⟨j, hj⟩
    · simp at h'
    · rw [hj] at hkey
      exact batteryKey_charge_ne_pc (j + 1) (n + 1) hkey
  have r2 := loadData_le_one_inv "partial_charge" pf st1 st hp h2 hf2 r1.1
  exact r2.1

theorem spec_c2_summary_length_amended_witness :
    runLoad [synChargeFile] [synPcFile] = some synState ∧
    ([synChargeFile] : List MatFile).length ≤ 1 ∧
    ([synPcFile] : List MatFile).length ≤ 1 ∧
    synState.summary_data.length = sumCycles synState.battery_data := by
  have h : runLoad [synChargeFile] [synPcFile] = some synState := by
    norm_num [runLoad, load_charge_data, load_partial_charge_data, loadData,
      processBatteries, processCycles, processCycle, npMean, npMax, dictInsert,
      synCycle, synChargeFile, synPcFile, synState]
    decide
  exact ⟨h, by norm_num, by norm_num,
    spec_c2_summary_length_amended _ _ _ h (by norm_num) (by norm_num)⟩

/-- **C2 (counterexample).** The claim as stated fails: with two files in
the `charge/` directory, both containing a battery at position 1, the dict
entry of the first file is overwritten while `summary_data` keeps both
records, so the lengths are 2 and 1. -/
theorem spec_c2_counterexample :
    ¬ ∀ (cf pf : List MatFile) (st : ExplorerState),
        runLoad cf pf = some st →
        st.summary_data.length = sumCycles st.battery_data := by
  intro hclaim
  have hpair : (runLoad [miniFile, miniFile] []).map
      (fun st => (st.summary_data.length, sumCycles st.battery_data)) = some (2, 1) := by
    norm_num [runLoad, load_charge_data, load_partial_charge_data, loadData,
      processBatteries, processCycles, processCycle, npMean, npMax, dictInsert,
      synCycle, miniFile, sumCycles]
  cases hrun : runLoad [miniFile, miniFile] [] with
  | none => rw [hrun] at hpair; simp at hpair
  | some st =>
    have heq := hclaim _ _ _ hrun
    rw [hrun] at hpair
    simp at hpair
    omega

/-! ### Basic facts about the numpy aggregates -/

theorem le_foldl_max (t : List ℚ) : ∀ x a : ℚ, a ∈ x :: t → a ≤ t.foldl max x := by
  induction t with
  | nil => intro x a ha; simp at ha; simp [ha]
  | cons y ys ih =>
    intro x a ha
    simp only [List.foldl_cons]
    have hbase : max x y ≤ ys.foldl max (max x y) :=
      ih (max x y) (max x y) (List.mem_cons_self _ _)
    rcases List.mem_cons.mp ha with h | h
    · subst h; exact le_trans (le_max_left a y) hbase
    · rcases List.mem_cons.mp h with h2 | h2
      · subst h2; exact le_trans (le_max_right x a) hbase
      · exact ih (max x y) a (List.mem_cons.mpr (Or.inr h2))

/-- The mean of a non-empty list never exceeds its maximum. -/
theorem npMean_le_npMax {xs : List ℚ} {m : ℚ} (h : npMax xs = some m) :
    npMean xs ≤ m := by
  match xs, h with
  | x :: t, h =>
    have hm : t.foldl max x = m := by simpa [npMax] using h
    subst hm
    have hsum : (x :: t).sum ≤ (x :: t).length • (t.foldl max x) :=
      List.sum_le_card_nsmul _ _ (fun a ha => le_foldl_max t x a ha)
    have hlen : (0 : ℚ) < ((x :: t).length : ℚ) := by
      simp only [List.length_cons]
      positivity
    rw [npMean, div_le_iff₀ hlen]
    calc (x :: t).sum ≤ (x :: t).length • (t.foldl max x) := hsum
      _ = ((x :: t).length : ℚ) * (t.foldl max x) := by rw [nsmul_eq_mul]
      _ = (t.foldl max x) * ((x :: t).length : ℚ) := by ring

/-- Inversion of a successful per-cycle extraction: the four maxima exist
(so all four signal arrays are non-empty), the capacity array had a first
row, and the produced record is exactly the `cycle_features` dict. -/
theorem processCycle_eq_some {ctype : String} {bi ci : ℕ} {c : MatCycle}
    {r : CycleRecord} (h : processCycle ctype bi ci c = some r) :
    ∃ cap tm cm vm em,
      c.capacity.head? = some cap ∧
      npMax c.relative_time_min = some tm ∧
      npMax c.current_A = some cm ∧
      npMax c.voltage_V = some vm ∧
      npMax c.temperature_C = some em ∧
      r = { battery_id := bi + 1
            cycle_type := ctype
            cycle_idx := ci
            time_mean := npMean c.relative_time_min
            time_max := tm
            current_mean := npMean c.current_A
            current_max := cm
            voltage_mean := npMean c.voltage_V
            voltage_max := vm
            temperature_mean := npMean c.temperature_C
            temperature_max := em
            capacity := cap } := by
  simp only [processCycle, bind, Option.bind_eq_some, Option.some.injEq] at h
  obtain ⟨cap, hcap, tm, htm, cm, hcm, vm, hvm, em, hem, hr⟩ := h
  exact ⟨cap, tm, cm, vm, em, hcap, htm, hcm, hvm, hem, hr.symm⟩

/-- **C4.** For every `CycleRecord` the loader produces, the max of each of
the four signals is at least its mean. -/
theorem spec_c4_max_ge_mean {ctype : String} {bi ci : ℕ} {c : MatCycle}
    {r : CycleRecord} (h : processCycle ctype bi ci c = some r) :
    r.time_max ≥ r.time_mean ∧ r.current_max ≥ r.current_mean ∧
    r.voltage_max ≥ r.voltage_mean ∧ r.temperature_max ≥ r.temperature_mean := by
  obtain ⟨cap, tm, cm, vm, em, _, htm, hcm, hvm, hem, hr⟩ := processCycle_eq_some h
  subst hr
  exact ⟨npMean_le_npMax htm, npMean_le_npMax hcm,
         npMean_le_npMax hvm, npMean_le_npMax hem⟩

theorem pdStd_ten : pdStd [10, 20, 30] = some 10 := by
  norm_num [pdStd, sampleVar, npMean]
  rw [show (100 : ℝ) = 10 ^ 2 by norm_num]
  exact Real.sqrt_sq (by norm_num)

theorem pdStd_const : pdStd [5, 5, 5] = some 0 := by
  norm_num [pdStd, sampleVar, npMean]

/-- **C5.** On the synthetic input with charge capacities `[10, 20, 30]`
and partial-charge capacities `[5, 5, 5]`, the grouped statistics are:
"charge" → mean 20, min 10, max 30, std 10 (≈ 10.0); "partial_charge" →
mean 5, min 5, max 5, std 0. -/
theorem spec_c5_grouped_stats :
    (runPipeline [synChargeFile] [synPcFile]).map SummarizeOutput.grouped =
      some [⟨"charge", 20, 10, 30, some 10⟩,
            ⟨"partial_charge", 5, 5, 5, some 0⟩] := by
  have h1 : runLoad [synChargeFile] [synPcFile] = some synState := by
    norm_num [runLoad, load_charge_data, load_partial_charge_data, loadData,
      processBatteries, processCycles, processCycle, npMean, npMax, dictInsert,
      synCycle, synChargeFile, synPcFile, synState]
    decide
  rw [runPipeline, h1, Option.bind, synState]
  simp +decide [summarize_dataset, flatCaps, flat?, groupedRows, sortKeys,
    insertSorted, pdStd_ten, pdStd_const]
  norm_num [npMean]

theorem spec_c4_max_ge_mean_witness :
    processCycle "charge" 0 0 ⟨[1, 3], [2], [4], [5], [[7]]⟩ =
      some ⟨1, "charge", 0, 2, 3, 2, 2, 4, 4, 5, 5, [7]⟩ ∧
    ((⟨1, "charge", 0, 2, 3, 2, 2, 4, 4, 5, 5, [7]⟩ : CycleRecord).time_max ≥
        (⟨1, "charge", 0, 2, 3, 2, 2, 4, 4, 5, 5, [7]⟩ : CycleRecord).time_mean ∧
      (⟨1, "charge", 0, 2, 3, 2, 2, 4, 4, 5, 5, [7]⟩ : CycleRecord).current_max ≥
        (⟨1, "charge", 0, 2, 3, 2, 2, 4, 4, 5, 5, [7]⟩ : CycleRecord).current_mean ∧
      (⟨1, "charge", 0, 2, 3, 2, 2, 4, 4, 5, 5, [7]⟩ : CycleRecord).voltage_max ≥
        (⟨1, "charge", 0, 2, 3, 2, 2, 4, 4, 5, 5, [7]⟩ : CycleRecord).voltage_mean ∧
      (⟨1, "charge", 0, 2, 3, 2, 2, 4, 4, 5, 5, [7]⟩ : CycleRecord).temperature_max ≥
        (⟨1, "charge", 0, 2, 3, 2, 2, 4, 4, 5, 5, [7]⟩ : CycleRecord).temperature_mean) := by
  have h : processCycle "charge" 0 0 ⟨[1, 3], [2], [4], [5], [[7]]⟩ =
      some ⟨1, "charge", 0, 2, 3, 2, 2, 4, 4, 5, 5, [7]⟩ := by
    norm_num [processCycle, npMean, npMax]
  exact ⟨h, spec_c4_max_ge_mean h⟩

/-! ### Cycle indices (C3) -/

theorem processCycles_map_idx (ctype : String) (bi : ℕ) :
    ∀ (cs : List MatCycle) (i : ℕ) (rs : List CycleRecord) (caps : List (List ℚ)),
      processCycles ctype bi i cs = some (rs, caps) →
      rs.map CycleRecord.cycle_idx = List.range' i rs.length := by
  intro cs
  induction cs with
  | nil =>
    intro i rs caps h
    simp only [processCycles, Option.some.injEq, Prod.mk.injEq] at h
    obtain ⟨h1, h2⟩ := h
    simp [← h1]
  | cons c cs ih =>
    intro i rs caps h
    simp only [processCycles, bind, Option.bind_eq_some, Option.some.injEq,
      Prod.mk.injEq] at h
    obtain ⟨r, hr, ⟨rs', caps'⟩, hrec, h1, h2⟩ := h
    obtain ⟨cap, tm, cm, vm, em, _, _, _, _, _, hrEq⟩ := processCycle_eq_some hr
    have hri : r.cycle_idx = i := by rw [hrEq]
    have hrest := ih (i + 1) rs' caps' hrec
    subst h1
    simp [List.range', hri, hrest]

theorem processBatteries_goodIdx (ctype : String) :
    ∀ (bs : List MatBattery) (i : ℕ) (st st' : ExplorerState),
      processBatteries ctype i bs st = some st' →
      (∀ p ∈ st.battery_data,
        p.2.cycles.map CycleRecord.cycle_idx = List.range p.2.cycles.length) →
      ∀ p ∈ st'.battery_data,
        p.2.cycles.map CycleRecord.cycle_idx = List.range p.2.cycles.length := by
  intro bs
  induction bs with
  | nil =>
    intro i st st' h hg
    simp only [processBatteries, Option.some.injEq] at h
    subst h
    exact hg
  | cons b bs ih =>
    intro i st st' h hg
    simp only [processBatteries, bind, Option.bind_eq_some] at h
    obtain ⟨⟨rs, caps⟩, hrc, h⟩ := h
    apply ih (i + 1) _ st' h
    intro p hp
    rcases mem_dictInsert hp with hp | hp
    · exact hg p hp
    · rw [hp]
      have := processCycles_map_idx ctype i b 0 rs caps hrc
      simpa [List.range_eq_range'] using this

theorem loadData_goodIdx (ctype : String) :
    ∀ (fs : List MatFile) (st st' : ExplorerState),
      loadData ctype fs st = some st' →
      (∀ p ∈ st.battery_data,
        p.2.cycles.map CycleRecord.cycle_idx = List.range p.2.cycles.length) →
      ∀ p ∈ st'.battery_data,
        p.2.cycles.map CycleRecord.cycle_idx = List.range p.2.cycles.length := by
  intro fs
  induction fs with
  | nil =>
    intro st st' h hg
    simp only [loadData, Option.some.injEq] at h
    subst h
    exact hg
  | cons f fs ih =>
    intro st st' h hg
    simp only [loadData, bind, Option.bind_eq_some] at h
    obtain ⟨st1, h1, h2⟩ := h
    exact ih st1 st' h2 (processBatteries_goodIdx ctype f 0 st st1 h1 hg)

/-- **C3.** In every loaded dataset, the cycle indices of each
battery-group (keyed by battery id and cycle type) are exactly
`0, 1, 2, …` in list order: they are unique within the group and reflect
the ordering of cycles in the source data. -/
theorem spec_c3_cycle_idx_unique (cf pf : List MatFile) (st : ExplorerState)
    (h : runLoad cf pf = some st) :
    ∀ p ∈ st.battery_data,
      (p.2.cycles.map CycleRecord.cycle_idx).Nodup ∧
      p.2.cycles.map CycleRecord.cycle_idx = List.range p.2.cycles.length := by
  simp only [runLoad, load_charge_data, load_partial_charge_data,
    Option.bind_eq_some] at h
  obtain ⟨st1, hc, hp⟩ := h
  have g1 := loadData_goodIdx "charge" cf ⟨[], []⟩ st1 hc (by simp)
  have g2 := loadData_goodIdx "partial_charge" pf st1 st hp g1
  intro p hpmem
  refine ⟨?_, g2 p hpmem⟩
  rw [g2 p hpmem]
  exact List.nodup_range _

theorem spec_c3_cycle_idx_unique_witness :
    runLoad [synChargeFile] [synPcFile] = some synState ∧
    ∀ p ∈ synState.battery_data,
      (p.2.cycles.map CycleRecord.cycle_idx).Nodup ∧
      p.2.cycles.map CycleRecord.cycle_idx = List.range p.2.cycles.length := by
  have h : runLoad [synChargeFile] [synPcFile] = some synState := by
    norm_num [runLoad, load_charge_data, load_partial_charge_data, loadData,
      processBatteries, processCycles, processCycle, npMean, npMax, dictInsert,
      synCycle, synChargeFile, synPcFile, synState]
    decide
  exact ⟨h, spec_c3_cycle_idx_unique _ _ _ h⟩

/-! ### Key collisions between files (C10) -/

/-- **C10.** The dict `battery_data` is keyed only by battery position and
cycle type.  When two files of the same directory each contain a battery
at position 1, the group built from the later file replaces the earlier
one in the mapping while `summary_data` keeps the records of both, so the
reported battery count (the dict's size) counts distinct
(position, cycle_type) pairs, not loaded (file, battery) pairs. -/
theorem spec_c10_key_collision (b1 b2 : MatBattery)
    (rs1 : List CycleRecord) (cps1 : List (List ℚ))
    (rs2 : List CycleRecord) (cps2 : List (List ℚ))
    (h1 : processCycles "charge" 0 0 b1 = some (rs1, cps1))
    (h2 : processCycles "charge" 0 0 b2 = some (rs2, cps2)) :
    ∃ st, load_charge_data [[b1], [b2]] ⟨[], []⟩ = some st ∧
      st.battery_data = [(batteryKey 1 "charge", ⟨rs2, cps2⟩)] ∧
      st.summary_data = rs1 ++ rs2 ∧
      st.battery_data.length = 1 := by
  refine ⟨⟨[(batteryKey 1 "charge", ⟨rs2, cps2⟩)], rs1 ++ rs2⟩, ?_, rfl, rfl, rfl⟩
  simp [load_charge_data, loadData, processBatteries, h1, h2, dictInsert, bind]

/-! ### Fatal failure on an empty signal (C7) -/

theorem obind_fun_none {α β : Type} (x : Option α) :
    (x.bind fun _ => (none : Option β)) = none := by
  cases x <;> rfl

theorem processCycle_none_of_empty {ctype : String} {bi ci : ℕ} {c : MatCycle}
    (h : hasEmptySignal c) : processCycle ctype bi ci c = none := by
  rcases h with h | h | h | h <;>
    simp [processCycle, h, npMax, bind, obind_fun_none]

theorem processCycles_none_of_mem {ctype : String} {bi : ℕ} :
    ∀ (cs : List MatCycle) (i : ℕ) (c : MatCycle), c ∈ cs → hasEmptySignal c →
      processCycles ctype bi i cs = none := by
  intro cs
  induction cs with
  | nil => intro i c hc; simp at hc
  | cons c0 cs ih =>
    intro i c hc hbad
    rcases List.mem_cons.mp hc with hc | hc
    · subst hc
      simp [processCycles, bind, processCycle_none_of_empty hbad]
    · cases hp : processCycle ctype bi i c0 with
      | none => simp [processCycles, bind, hp]
      | some r =>
        simp [processCycles, bind, hp, ih (i + 1) c hc hbad, obind_fun_none]

theorem processBatteries_none_of_mem {ctype : String} :
    ∀ (bs : List MatBattery) (i : ℕ) (st : ExplorerState) (b : MatBattery)
      (c : MatCycle), b ∈ bs → c ∈ b → hasEmptySignal c →
      processBatteries ctype i bs st = none := by
  intro bs
  induction bs with
  | nil => intro i st b c hb; simp at hb
  | cons b0 bs ih =>
    intro i st b c hb hc hbad
    rcases List.mem_cons.mp hb with hb | hb
    · subst hb
      simp [processBatteries, bind, processCycles_none_of_mem b 0 c hc hbad]
    · cases hp : processCycles ctype i 0 b0 with
      | none => simp [processBatteries, bind, hp]
      | some rc =>
        simp [processBatteries, bind, hp]
        exact ih (i + 1) _ b c hb hc hbad

theorem loadData_none_of_mem {ctype : String} :
    ∀ (fs : List MatFile) (st : ExplorerState) (f : MatFile) (b : MatBattery)
      (c : MatCycle), f ∈ fs → b ∈ f → c ∈ b → hasEmptySignal c →
      loadData ctype fs st = none := by
  intro fs
  induction fs with
  | nil => intro st f b c hf; simp at hf
  | cons f0 fs ih =>
    intro st f b c hf hb hc hbad
    rcases List.mem_cons.mp hf with hf | hf
    · subst hf
      simp [loadData, bind, processBatteries_none_of_mem f 0 st b c hb hc hbad]
    · cases hp : processBatteries ctype 0 f0 st with
      | none => simp [loadData, bind, hp]
      | some st1 =>
        simp [loadData, bind, hp]
        exact ih st1 f b c hf hb hc hbad

/-- **C7.** If any of the four signal arrays of some cycle in the input is
empty, the whole load aborts (`np.max` raises and nothing catches it):
no state is produced, no record is built for that cycle, and there is no
skip-and-continue. -/
theorem spec_c7_empty_signal_fatal (cf pf : List MatFile)
    (h : (∃ f ∈ cf, ∃ b ∈ f, ∃ c ∈ b, hasEmptySignal c) ∨
         (∃ f ∈ pf, ∃ b ∈ f, ∃ c ∈ b, hasEmptySignal c)) :
    runLoad cf pf = none ∧
    ∀ (ctype : String) (bi ci : ℕ) (c : MatCycle), hasEmptySignal c →
      processCycle ctype bi ci c = none := by
  refine ⟨?_, fun ctype bi ci c hc => processCycle_none_of_empty hc⟩
  rcases h with ⟨f, hf, b, hb, c, hc, hbad⟩ | ⟨f, hf, b, hb, c, hc, hbad⟩
  · simp [runLoad, load_charge_data,
      loadData_none_of_mem cf ⟨[], []⟩ f b c hf hb hc hbad]
  · cases hch : load_charge_data cf ⟨[], []⟩ with
    | none => simp [runLoad, hch]
    | some st1 =>
      simp [runLoad, hch, load_partial_charge_data,
        loadData_none_of_mem pf st1 f b c hf hb hc hbad]

theorem spec_c7_empty_signal_fatal_witness :
    ((∃ f ∈ [[[badCycle]]], ∃ b ∈ f, ∃ c ∈ b, hasEmptySignal c) ∨
      (∃ f ∈ ([] : List MatFile), ∃ b ∈ f, ∃ c ∈ b, hasEmptySignal c)) ∧
    (runLoad [[[badCycle]]] [] = none ∧
      ∀ (ctype : String) (bi ci : ℕ) (c : MatCycle), hasEmptySignal c →
        processCycle ctype bi ci c = none) := by
  have h : (∃ f ∈ [[[badCycle]]], ∃ b ∈ f, ∃ c ∈ b, hasEmptySignal c) ∨
      (∃ f ∈ ([] : List MatFile), ∃ b ∈ f, ∃ c ∈ b, hasEmptySignal c) := by
    left
    exact ⟨[[badCycle]], by simp, [badCycle], by simp, badCycle, by simp,
      Or.inl rfl⟩
  exact ⟨h, spec_c7_empty_signal_fatal _ _ h⟩

/-! ### The summarize step (C1, C6, C8) -/

theorem flatCaps_length : ∀ (l : List CycleRecord) (caps : List ℚ),
    flatCaps l = some caps → caps.length = l.length := by
  intro l
  induction l with
  | nil => intro caps h; simp [flatCaps] at h; simp [← h]
  | cons r rs ih =>
    intro caps h
    simp only [flatCaps, bind, Option.bind_eq_some, Option.some.injEq] at h
    obtain ⟨c0, hc0, cs0, hcs0, hcap⟩ := h
    subst hcap
    simp [ih cs0 hcs0]

theorem flatCaps_eq_some_of_ne_nil : ∀ {l : List CycleRecord},
    (∀ r ∈ l, r.capacity ≠ []) →
    ∃ caps, flatCaps l = some caps ∧ caps.length = l.length := by
  intro l
  induction l with
  | nil => intro h; exact ⟨[], rfl, rfl⟩
  | cons r rs ih =>
    intro h
    obtain ⟨caps, hc, hl⟩ := ih (fun x hx => h x (List.mem_cons.mpr (Or.inr hx)))
    have hr : r.capacity ≠ [] := h r (List.mem_cons_self _ _)
    obtain ⟨c0, cs0, hcap⟩ := List.exists_cons_of_ne_nil hr
    refine ⟨c0 :: caps, ?_, by simp [hl]⟩
    simp [flatCaps, flat?, hcap, bind, hc]

theorem summarize_dataset_eq (st : ExplorerState)
    (h1 : st.summary_data ≠ []) (c : ℚ) (cs : List ℚ)
    (hc : flatCaps st.summary_data = some (c :: cs)) :
    summarize_dataset st = some
      { total_batteries := st.battery_data.length
        total_cycles := st.summary_data.length
        global := { mean := npMean (c :: cs), min := cs.foldl min c,
                    max := cs.foldl max c, std := npStd (c :: cs) }
        header := summaryHeader
        rows := (st.summary_data.zip (c :: cs)).map (fun p => mkRow p.1 p.2)
        grouped := groupedRows
          ((st.summary_data.map (fun r => r.cycle_type)).zip (c :: cs)) } := by
  unfold summarize_dataset
  cases hsd : st.summary_data with
  | nil => exact absurd hsd h1
  | cons r0 rest =>
    rw [← hsd, hc]
    rw [hsd]
    rfl

theorem mem_groupedRows {typed : List (String × ℚ)} {g : GroupRow}
    (hg : g ∈ groupedRows typed) :
    ∃ c cs,
      ((typed.filter (fun p => p.1 = g.cycle_type)).map (fun p => p.2)) = c :: cs ∧
      g.mean = npMean (c :: cs) ∧ g.min = cs.foldl min c ∧
      g.max = cs.foldl max c ∧ g.std = pdStd (c :: cs) := by
  unfold groupedRows at hg
  obtain ⟨k, hk, hmatch⟩ := List.mem_filterMap.mp hg
  cases hflt : (typed.filter (fun p => p.1 = k)).map (fun p => p.2) with
  | nil => rw [hflt] at hmatch; simp at hmatch
  | cons c cs =>
    rw [hflt] at hmatch
    simp only [Option.some.injEq] at hmatch
    subst hmatch
    exact ⟨c, cs, hflt, rfl, rfl, rfl, rfl⟩

theorem flatCaps_filter (k : String) :
    ∀ (l : List CycleRecord) (caps : List ℚ), flatCaps l = some caps →
      flatCaps (l.filter (fun r => r.cycle_type = k)) =
        some ((((l.map (fun r => r.cycle_type)).zip caps).filter
          (fun p => p.1 = k)).map (fun p => p.2)) := by
  intro l
  induction l with
  | nil => intro caps h; simp [flatCaps] at h; simp [← h, flatCaps]
  | cons r rs ih =>
    intro caps h
    simp only [flatCaps, bind, Option.bind_eq_some, Option.some.injEq] at h
    obtain ⟨c0, hc0, cs0, hcs0, hcap⟩ := h
    subst hcap
    by_cases hk : r.cycle_type = k
    · simp only [List.filter_cons, List.map_cons, List.zip_cons_cons, hk]
      simp [flatCaps, bind, hc0, ih cs0 hcs0]
    · simp only [List.filter_cons, List.map_cons, List.zip_cons_cons, hk]
      simp [hk, ih cs0 hcs0]

/-- **C1.** For every non-empty summary table (with unwrappable capacity
arrays, per the data-model invariant), the printed global capacity
standard deviation uses the population convention,
`sqrt(sum((x - mean)^2) / N)` over all flattened capacities, while each
per-`cycle_type` group's standard deviation uses the sample convention,
`sqrt(sum((x - mean)^2) / (N_g - 1))` over that group's capacities —
NaN (`none`) when the group has a single record, where the sample formula
is undefined. -/
theorem spec_c1_std_conventions (st : ExplorerState)
    (h1 : st.summary_data ≠ [])
    (h2 : ∀ r ∈ st.summary_data, r.capacity ≠ []) :
    ∃ out caps, summarize_dataset st = some out ∧
      flatCaps st.summary_data = some caps ∧
      out.global.std = Real.sqrt
        (((caps.map (fun x => (x - caps.sum / (caps.length : ℚ)) ^ 2)).sum /
          (caps.length : ℚ) : ℚ) : ℝ) ∧
      ∀ g ∈ out.grouped,
        ∃ gcaps,
          flatCaps (st.summary_data.filter
            (fun r => r.cycle_type = g.cycle_type)) = some gcaps ∧
          (2 ≤ gcaps.length → g.std = some (Real.sqrt
            (((gcaps.map (fun x => (x - gcaps.sum / (gcaps.length : ℚ)) ^ 2)).sum /
              ((gcaps.length : ℚ) - 1) : ℚ) : ℝ))) ∧
          (gcaps.length = 1 → g.std = none) := by
  obtain ⟨caps, hc, hlen⟩ := flatCaps_eq_some_of_ne_nil h2
  cases caps with
  | nil =>
    exfalso
    cases hsd : st.summary_data with
    | nil => exact h1 hsd
    | cons r0 rest => rw [hsd] at hlen; simp at hlen
  | cons c cs =>
    have hsum := summarize_dataset_eq st h1 c cs hc
    refine ⟨_, c :: cs, hsum, hc, ?_, ?_⟩
    · rfl
    · intro g hg
      obtain ⟨c0, cs0, hflt, hmean, hmin, hmax, hstd⟩ := mem_groupedRows hg
      refine ⟨c0 :: cs0, ?_, ?_, ?_⟩
      · rw [flatCaps_filter g.cycle_type st.summary_data _ hc, hflt]
      · intro hlen2
        rw [hstd]
        simp only [pdStd, sampleVar, if_pos hlen2, Option.map_some']
        rfl
      · intro hone
        have hcs0 : cs0 = [] := by
          simp at hone
          exact hone
        subst hcs0
        rw [hstd]
        simp [pdStd, sampleVar]

/-- **C8.** When some `cycle_type` group contains exactly one record,
`summarize_dataset` still completes (no crash) and that group's standard
deviation is the explicit "undefined" value of the ddof=1 convention:
NaN, modelled as `none`. -/
theorem spec_c8_singleton_group (st : ExplorerState)
    (h1 : st.summary_data ≠ [])
    (h2 : ∀ r ∈ st.summary_data, r.capacity ≠ []) :
    ∃ out, summarize_dataset st = some out ∧
      ∀ g ∈ out.grouped,
        (st.summary_data.filter (fun r => r.cycle_type = g.cycle_type)).length = 1 →
        g.std = none := by
  obtain ⟨caps, hc, hlen⟩ := flatCaps_eq_some_of_ne_nil h2
  cases caps with
  | nil =>
    exfalso
    cases hsd : st.summary_data with
    | nil => exact h1 hsd
    | cons r0 rest => rw [hsd] at hlen; simp at hlen
  | cons c cs =>
    have hsum := summarize_dataset_eq st h1 c cs hc
    refine ⟨_, hsum, ?_⟩
    intro g hg hone
    obtain ⟨c0, cs0, hflt, _, _, _, hstd⟩ := mem_groupedRows hg
    have hfc := flatCaps_filter g.cycle_type st.summary_data _ hc
    have hglen := flatCaps_length _ _ hfc
    rw [hflt] at hglen
    rw [hone] at hglen
    have hcs0 : cs0 = [] := by
      simp at hglen
      exact hglen
    subst hcs0
    rw [hstd]
    simp [pdStd, sampleVar]

theorem processBatteries_records (ctype : String) :
    ∀ (bs : List MatBattery) (i : ℕ) (st st' : ExplorerState),
      processBatteries ctype i bs st = some st' →
      ∃ rs, batteriesRecords ctype i bs = some rs ∧
        st'.summary_data = st.summary_data ++ rs := by
  intro bs
  induction bs with
  | nil =>
    intro i st st' h
    simp only [processBatteries, Option.some.injEq] at h
    subst h
    exact ⟨[], rfl, by simp⟩
  | cons b bs ih =>
    intro i st st' h
    simp only [processBatteries, bind, Option.bind_eq_some] at h
    obtain ⟨⟨rs0, caps0⟩, hrc, h⟩ := h
    obtain ⟨rs, hbr, hsum⟩ := ih (i + 1) _ st' h
    refine ⟨rs0 ++ rs, ?_, ?_⟩
    · simp [batteriesRecords, bind, hrc, hbr]
    · simp only at hsum
      rw [hsum]
      simp [List.append_assoc]

theorem loadData_records (ctype : String) :
    ∀ (fs : List MatFile) (st st' : ExplorerState),
      loadData ctype fs st = some st' →
      ∃ rs, filesRecords ctype fs = some rs ∧
        st'.summary_data = st.summary_data ++ rs := by
  intro fs
  induction fs with
  | nil =>
    intro st st' h
    simp only [loadData, Option.some.injEq] at h
    subst h
    exact ⟨[], rfl, by simp⟩
  | cons f fs ih =>
    intro st st' h
    simp only [loadData, bind, Option.bind_eq_some] at h
    obtain ⟨st1, h1, h2⟩ := h
    obtain ⟨rs0, hbr, hsum0⟩ := processBatteries_records ctype f 0 st st1 h1
    obtain ⟨rs, hfr, hsum⟩ := ih st1 st' h2
    refine ⟨rs0 ++ rs, ?_, ?_⟩
    · simp [filesRecords, bind, hbr, hfr]
    · rw [hsum, hsum0]
      simp [List.append_assoc]

/-- **C6.** The per-cycle CSV has exactly the twelve columns
battery_id, cycle_type, cycle_idx, time_mean, time_max, current_mean,
current_max, voltage_mean, voltage_max, temperature_mean,
temperature_max, flattened_capacity (the raw capacity column dropped,
its scalar-unwrapped variant appended; see `mkRow`), and its rows are the
summary table in accumulation order — charge files then partial-charge
files, each file's batteries in order, each battery's cycles in order —
with no resorting. -/
theorem spec_c6_csv_columns_and_order (cf pf : List MatFile) (st : ExplorerState)
    (hld : runLoad cf pf = some st)
    (h1 : st.summary_data ≠ [])
    (h2 : ∀ r ∈ st.summary_data, r.capacity ≠ []) :
    ∃ out caps crs prs,
      summarize_dataset st = some out ∧
      flatCaps st.summary_data = some caps ∧
      out.header = ["battery_id", "cycle_type", "cycle_idx", "time_mean",
        "time_max", "current_mean", "current_max", "voltage_mean",
        "voltage_max", "temperature_mean", "temperature_max",
        "flattened_capacity"] ∧
      out.rows = (st.summary_data.zip caps).map (fun p => mkRow p.1 p.2) ∧
      filesRecords "charge" cf = some crs ∧
      filesRecords "partial_charge" pf = some prs ∧
      st.summary_data = crs ++ prs := by
  obtain ⟨caps, hc, hlen⟩ := flatCaps_eq_some_of_ne_nil h2
  cases caps with
  | nil =>
    exfalso
    cases hsd : st.summary_data with
    | nil => exact h1 hsd
    | cons r0 rest => rw [hsd] at hlen; simp at hlen
  | cons c cs =>
    have hsum := summarize_dataset_eq st h1 c cs hc
    simp only [runLoad, load_charge_data, load_partial_charge_data,
      Option.bind_eq_some] at hld
    obtain ⟨st1, hch, hpc⟩ := hld
    obtain ⟨crs, hcrs, hsum1⟩ := loadData_records "charge" cf ⟨[], []⟩ st1 hch
    obtain ⟨prs, hprs, hsum2⟩ := loadData_records "partial_charge" pf st1 st hpc
    refine ⟨_, c :: cs, crs, prs, hsum, hc, rfl, rfl, hcrs, hprs, ?_⟩
    rw [hsum2, hsum1]
    simp

/-! ### Determinism of the pipeline (C9) and remaining witnesses -/

/-- **C9.** The pipeline is a pure function of the decoded input files:
two runs, each on a fresh explorer state, over identical inputs produce
identical per-cycle CSV bytes (under the fixed rendering) and identical
grouped-statistics tables — hence byte-identical CSV files given stable
floating-point formatting. -/
theorem spec_c9_idempotent_pipeline (cf1 pf1 cf2 pf2 : List MatFile)
    (h1 : cf1 = cf2) (h2 : pf1 = pf2) :
    (runPipeline cf1 pf1).map renderCsv = (runPipeline cf2 pf2).map renderCsv ∧
    (runPipeline cf1 pf1).map SummarizeOutput.grouped =
      (runPipeline cf2 pf2).map SummarizeOutput.grouped := by
  subst h1
  subst h2
  exact ⟨rfl, rfl⟩

theorem spec_c9_idempotent_pipeline_witness :
    ([synChargeFile] : List MatFile) = [synChargeFile] ∧
    ([synPcFile] : List MatFile) = [synPcFile] ∧
    ((runPipeline [synChargeFile] [synPcFile]).map renderCsv =
       (runPipeline [synChargeFile] [synPcFile]).map renderCsv ∧
     (runPipeline [synChargeFile] [synPcFile]).map SummarizeOutput.grouped =
       (runPipeline [synChargeFile] [synPcFile]).map SummarizeOutput.grouped) :=
  ⟨rfl, rfl, spec_c9_idempotent_pipeline _ _ _ _ rfl rfl⟩

theorem spec_c10_key_collision_witness :
    processCycles "charge" 0 0 [synCycle 1] =
      some ([⟨1, "charge", 0, 1, 1, 1, 1, 1, 1, 1, 1, [1]⟩], [[1]]) ∧
    processCycles "charge" 0 0 [synCycle 2] =
      some ([⟨1, "charge", 0, 1, 1, 1, 1, 1, 1, 1, 1, [2]⟩], [[2]]) ∧
    (∃ st, load_charge_data [[[synCycle 1]], [[synCycle 2]]] ⟨[], []⟩ = some st ∧
      st.battery_data = [(batteryKey 1 "charge",
        ⟨[⟨1, "charge", 0, 1, 1, 1, 1, 1, 1, 1, 1, [2]⟩], [[2]]⟩)] ∧
      st.summary_data = [⟨1, "charge", 0, 1, 1, 1, 1, 1, 1, 1, 1, [1]⟩] ++
        [⟨1, "charge", 0, 1, 1, 1, 1, 1, 1, 1, 1, [2]⟩] ∧
      st.battery_data.length = 1) := by
  have h1 : processCycles "charge" 0 0 [synCycle 1] =
      some ([⟨1, "charge", 0, 1, 1, 1, 1, 1, 1, 1, 1, [1]⟩], [[1]]) := by
    norm_num [processCycles, processCycle, npMean, npMax, synCycle, bind]
  have h2 : processCycles "charge" 0 0 [synCycle 2] =
      some ([⟨1, "charge", 0, 1, 1, 1, 1, 1, 1, 1, 1, [2]⟩], [[2]]) := by
    norm_num [processCycles, processCycle, npMean, npMax, synCycle, bind]
  exact ⟨h1, h2, spec_c10_key_collision _ _ _ _ _ _ h1 h2⟩

theorem spec_c1_std_conventions_witness :
    synState.summary_data ≠ [] ∧
    (∀ r ∈ synState.summary_data, r.capacity ≠ []) ∧
    (∃ out caps, summarize_dataset synState = some out ∧
      flatCaps synState.summary_data = some caps ∧
      out.global.std = Real.sqrt
        (((caps.map (fun x => (x - caps.sum / (caps.length : ℚ)) ^ 2)).sum /
          (caps.length : ℚ) : ℚ) : ℝ) ∧
      ∀ g ∈ out.grouped,
        ∃ gcaps,
          flatCaps (synState.summary_data.filter
            (fun r => r.cycle_type = g.cycle_type)) = some gcaps ∧
          (2 ≤ gcaps.length → g.std = some (Real.sqrt
            (((gcaps.map (fun x => (x - gcaps.sum / (gcaps.length : ℚ)) ^ 2)).sum /
              ((gcaps.length : ℚ) - 1) : ℚ) : ℝ))) ∧
          (gcaps.length = 1 → g.std = none)) := by
  have h1 : synState.summary_data ≠ [] := by decide
  have h2 : ∀ r ∈ synState.summary_data, r.capacity ≠ [] := by decide
  exact ⟨h1, h2, spec_c1_std_conventions synState h1 h2⟩

theorem spec_c8_singleton_group_witness :
    miniState.summary_data ≠ [] ∧
    (∀ r ∈ miniState.summary_data, r.capacity ≠ []) ∧
    (∃ out, summarize_dataset miniState = some out ∧
      ∀ g ∈ out.grouped,
        (miniState.summary_data.filter
          (fun r => r.cycle_type = g.cycle_type)).length = 1 →
        g.std = none) := by
  have h1 : miniState.summary_data ≠ [] := by decide
  have h2 : ∀ r ∈ miniState.summary_data, r.capacity ≠ [] := by decide
  exact ⟨h1, h2, spec_c8_singleton_group miniState h1 h2⟩

theorem spec_c6_csv_columns_and_order_witness :
    runLoad [synChargeFile] [synPcFile] = some synState ∧
    synState.summary_data ≠ [] ∧
    (∀ r ∈ synState.summary_data, r.capacity ≠ []) ∧
    (∃ out caps crs prs,
      summarize_dataset synState = some out ∧
      flatCaps synState.summary_data = some caps ∧
      out.header = ["battery_id", "cycle_type", "cycle_idx", "time_mean",
        "time_max", "current_mean", "current_max", "voltage_mean",
        "voltage_max", "temperature_mean", "temperature_max",
        "flattened_capacity"] ∧
      out.rows = (synState.summary_data.zip caps).map (fun p => mkRow p.1 p.2) ∧
      filesRecords "charge" [synChargeFile] = some crs ∧
      filesRecords "partial_charge" [synPcFile] = some prs ∧
      synState.summary_data = crs ++ prs) := by
  have hld : runLoad [synChargeFile] [synPcFile] = some synState := by
    norm_num [runLoad, load_charge_data, load_partial_charge_data, loadData,
      processBatteries, processCycles, processCycle, npMean, npMax, dictInsert,
      synCycle, synChargeFile, synPcFile, synState]
    decide
  have h1 : synState.summary_data ≠ [] := by decide
  have h2 : ∀ r ∈ synState.summary_data, r.capacity ≠ [] := by decide
  exact ⟨hld, h1, h2, spec_c6_csv_columns_and_order _ _ _ hld h1 h2⟩
